import Mathlib

/-!
Verification of the face-centered image processor (`face_processor.py`).

The Python source is shallowly embedded below.  Machine integers are
modelled as `Int` (Python integers are unbounded), Python's floor
division `//` as `Int.fdiv`, Python's stable `sorted` as
`List.insertionSort` (insertion sort in the `orderedInsert`
formulation is stable), and the external OpenCV collaborators
(cascade detectors, `imread`, `imwrite`) as oracle fields of an
environment record.  Images are modelled as a syntactic tree of the
operations applied to them, with a `dims` function giving the
`shape[:2]` pair `(height, width)`; slicing is taken exact (the
regions actually sliced by the program are proved in bounds).
-/

namespace FaceProc

/-- A bounding box `(x, y, w, h)` as produced by `detectMultiScale`. -/
structure Box where
  x : Int
  y : Int
  w : Int
  h : Int
deriving DecidableEq, Repr

/-- The result of `calculate_crop_region`: `(crop_left, crop_top, crop_right, crop_bottom)`. -/
structure CropRegion where
  left : Int
  top : Int
  right : Int
  bottom : Int
deriving DecidableEq, Repr

/-- Interpolation methods of `cv2.resize` that the model distinguishes. -/
inductive Interp where
  | lanczos4
  | linear
  | nearest
deriving DecidableEq, Repr

/-- An image, modelled as the tree of operations that produced it:
a raw decoded file, `cv2.cvtColor(..., COLOR_BGR2GRAY)`, a NumPy slice
`i[top:bottom, left:right]`, or a `cv2.resize`. -/
inductive Img where
  | raw (height width : Nat) (id : Nat)
  | gray (i : Img)
  | roi (i : Img) (top bottom left right : Int)
  | resized (i : Img) (height width : Nat) (interp : Interp)
deriving DecidableEq, Repr

/-- `image.shape[:2]`, i.e. `(height, width)`.  A slice's extent is
`(bottom - top, right - left)`; the program only slices regions that
are proved to lie inside the parent image. -/
def Img.dims : Img → Nat × Nat
  | raw h w _ => (h, w)
  | gray i => i.dims
  | roi _ t b l r => ((b - t).toNat, (r - l).toNat)
  | resized _ h w _ => (h, w)

/-- The crop-window computation of `calculate_crop_region` (lines 87-118)
given the already computed anchor `(face_x, face_y)` and the image
extents `w`, `h`.  Transcribed statement by statement; the
`crop_right`/`crop_bottom` values set inside the clamp branches are
recomputed from scratch by the final bounds check, exactly as in the
source. -/
def cropFromAnchor (face_x face_y w h : Int) : CropRegion :=
  let crop_left := face_x - 256
  let crop_top := face_y - 170
  let crop_right := crop_left + 512
  let crop_bottom := crop_top + 512
  let crop_left := if crop_left < 0 then 0 else if crop_right > w then w - 512 else crop_left
  let crop_top := if crop_top < 0 then 0 else if crop_bottom > h then h - 512 else crop_top
  let crop_left := max 0 crop_left
  let crop_top := max 0 crop_top
  ⟨crop_left, crop_top, min w (crop_left + 512), min h (crop_top + 512)⟩

/-- The crop-region algorithm exactly as the specification words it
(spec §4.1 `compute_crop_region`, steps 1-5), to be compared with the
source's `cropFromAnchor`.  Step 2 sets `right = width` and then
`left = right − target_size`; step 4 recomputes `right`/`bottom` from
the clamped `left`/`top`. -/
def cropRegionSpecAlg (ax ay width height : Int) : CropRegion :=
  let left := ax - 256
  let top := ay - 170
  let right := left + 512
  let bottom := top + 512
  let left := if left < 0 then 0 else if right > width then width - 512 else left
  let top := if top < 0 then 0 else if bottom > height then height - 512 else top
  let left := max 0 left
  let top := max 0 top
  ⟨left, top, min width (left + 512), min height (top + 512)⟩

/-- The comparison used by `sorted(eyes, key=lambda e: e[0])`. -/
def eyeLE (a b : Box) : Prop := a.x ≤ b.x

instance : DecidableRel eyeLE := fun a b => Int.decLe a.x b.x

instance : IsTotal Box eyeLE := ⟨fun a b => Int.le_total a.x b.x⟩

instance : IsTrans Box eyeLE := ⟨fun _ _ _ => Int.le_trans⟩

/-- `sorted(eyes, key=lambda e: e[0])` (line 65).  Python's `sorted` is a
stable sort; insertion sort in the `orderedInsert` formulation is stable,
so it is a faithful model. -/
def sortEyesByX (eyes : List Box) : List Box := List.insertionSort eyeLE eyes

/-- The anchor `(face_x, face_y)` computed by lines 62-75 of
`calculate_crop_region`: the midpoint of the centers of the first and
last boxes of the x-sorted eye list when at least two eyes were found,
the face box's center otherwise.  The sorted list of a list of length
`≥ 2` is nonempty, so the `head?`/`getLast?` fallback (which reuses the
face-center expression) is never taken. -/
def calcAnchor (face : Box) (eyes : List Box) : Int × Int :=
  if 2 ≤ eyes.length then
    match (sortEyesByX eyes).head?, (sortEyesByX eyes).getLast? with
    | some left_eye, some right_eye =>
        (Int.fdiv (left_eye.x + Int.fdiv left_eye.w 2 + right_eye.x + Int.fdiv right_eye.w 2) 2,
         Int.fdiv (left_eye.y + Int.fdiv left_eye.h 2 + right_eye.y + Int.fdiv right_eye.h 2) 2)
    | _, _ => (face.x + Int.fdiv face.w 2, face.y + Int.fdiv face.h 2)
  else
    (face.x + Int.fdiv face.w 2, face.y + Int.fdiv face.h 2)

/-- `calculate_crop_region(self, image, face, eyes)` (lines 57-118):
reads `h, w = image.shape[:2]`, computes the anchor, and clamps the
512x512 window. -/
def calculate_crop_region (image : Img) (face : Box) (eyes : List Box) : CropRegion :=
  let hw := image.dims
  let a := calcAnchor face eyes
  cropFromAnchor a.1 a.2 (hw.2 : Int) (hw.1 : Int)

/-- Keeps the box with strictly smaller `x`, preferring the first
argument on ties; the first argument precedes the accumulated list. -/
def combineMin (a : Box) : Option Box → Box
  | none => a
  | some m => if m.x < a.x then m else a

/-- The first element of the list attaining the minimal `x`
(earlier elements win ties). -/
def firstMinX : List Box → Option Box
  | [] => none
  | a :: l => some (combineMin a (firstMinX l))

/-- Keeps the box with strictly larger `x`, preferring the second
argument on ties; the second argument comes later in the list. -/
def combineMax (a : Box) : Option Box → Box
  | none => a
  | some m => if a.x ≤ m.x then m else a

/-- The last element of the list attaining the maximal `x`
(later elements win ties). -/
def lastMaxX : List Box → Option Box
  | [] => none
  | a :: l => some (combineMax a (lastMaxX l))

/-- Errors raised by the external collaborators (OpenCV, the filesystem). -/
abbrev Err := String

/-- A file written by `cv2.imwrite`: output name and the image written. -/
structure WrittenFile where
  name : String
  image : Img
deriving DecidableEq, Repr

/-- The per-image environment: the file's base name, the result of
`cv2.imread` (`none` models a file that cannot be decoded), and the
external collaborators, each of which may raise. -/
structure Env where
  name : String
  loadResult : Option Img
  faceCascade : Img → Except Err (List Box)
  eyeCascade : Img → Except Err (List Box)
  writeOp : String → Img → Except Err Unit

/-- `max(faces, key=lambda f: f[2] * f[3])` (line 45): Python's `max`
keeps the first element whose key is maximal (later elements replace the
current best only when strictly greater). -/
def maxByArea (f : Box) (fs : List Box) : Box :=
  fs.foldl (fun m g => if m.w * m.h < g.w * g.h then g else m) f

/-- `detect_face_and_eyes(self, image)` (lines 34-55): detect faces on the
grayscale image, pick the largest by area, detect eyes in the face's
sub-region `gray[y:y+h, x:x+w]`, and translate the eye boxes back to
full-image coordinates. -/
def detect_face_and_eyes (env : Env) (image : Img) : Except Err (Option (Box × List Box)) :=
  match env.faceCascade (Img.gray image) with
  | .error e => .error e
  | .ok [] => .ok none
  | .ok (f :: fs) =>
    let face := maxByArea f fs
    match env.eyeCascade
        (Img.roi (Img.gray image) face.y (face.y + face.h) face.x (face.x + face.w)) with
    | .error e => .error e
    | .ok eyes =>
      .ok (some (face, eyes.map (fun e => ⟨face.x + e.x, face.y + e.y, e.w, e.h⟩)))

/-- Lines 139-146 of `process_image`: slice `image[top:bottom, left:right]`
and resize to 512x512 with `cv2.INTER_LANCZOS4` exactly when the slice's
shape differs from 512 in either axis, else pass it through unchanged. -/
def extract_and_normalize (image : Img) (left top right bottom : Int) : Img :=
  let cropped := Img.roi image top bottom left right
  if cropped.dims.1 ≠ 512 ∨ cropped.dims.2 ≠ 512 then
    Img.resized cropped 512 512 Interp.lanczos4
  else
    cropped

/-- Lines 137-146 of `process_image`: compute the crop region from the
detection results, then slice and normalize. -/
def cropAndNormalize (image : Img) (face : Box) (eyes : List Box) : Img :=
  let region := calculate_crop_region image face eyes
  extract_and_normalize image region.left region.top region.right region.bottom

/-- The body of `process_image` (lines 122-153), before the surrounding
`try/except`: short-circuits with a `False` result (and no written file)
on load failure and on "no face"; propagates any error raised by a
collaborator; on success writes `processed_<name>` and returns `True`
together with the written file. -/
def processImageBody (env : Env) : Except Err (Bool × List WrittenFile) :=
  match env.loadResult with
  | none => .ok (false, [])
  | some image =>
    match detect_face_and_eyes env image with
    | .error e => .error e
    | .ok none => .ok (false, [])
    | .ok (some (face, eyes)) =>
      match env.writeOp ("processed_" ++ env.name) (cropAndNormalize image face eyes) with
      | .error e => .error e
      | .ok _ => .ok (true, [⟨"processed_" ++ env.name, cropAndNormalize image face eyes⟩])

/-- `process_image(self, image_path, output_folder)` (lines 120-157): the
body wrapped in `try: ... except Exception: return False` — any error of
the body is caught and becomes a `False` result with no written file. -/
def process_image (env : Env) : Bool × List WrittenFile :=
  match processImageBody env with
  | .ok r => r
  | .error _ => (false, [])

/-- One step of the tally loop of `process_folder` (lines 180-184). -/
def countStep (sf : Nat × Nat) (e : Env) : Nat × Nat :=
  if (process_image e).1 then (sf.1 + 1, sf.2) else (sf.1, sf.2 + 1)

/-- The `(successful, failed)` counters after the loop of
`process_folder` (lines 177-184). -/
def processCounts (inputs : List Env) : Nat × Nat :=
  inputs.foldl countStep (0, 0)

/-- `process_folder(self, input_folder, output_folder)` (lines 159-191):
returns `False` when no images were found, otherwise processes every
image and returns `successful > 0`. -/
def process_folder (inputs : List Env) : Bool :=
  match inputs with
  | [] => false
  | _ :: _ => decide (0 < (processCounts inputs).1)

/-- A concrete input whose whole pipeline succeeds: a 1000x1000 image
with one face at `(450, 450, 100, 100)` and no eyes detected. -/
def envOk (id : Nat) : Env :=
  { name := toString id ++ ".jpg"
    loadResult := some (Img.raw 1000 1000 id)
    faceCascade := fun _ => .ok [⟨450, 450, 100, 100⟩]
    eyeCascade := fun _ => .ok []
    writeOp := fun _ _ => .ok () }

/-- A concrete input whose file cannot be decoded (`cv2.imread` is `None`). -/
def envReadFail : Env :=
  { name := "bad.jpg"
    loadResult := none
    faceCascade := fun _ => .ok []
    eyeCascade := fun _ => .ok []
    writeOp := fun _ _ => .ok () }

/-- A concrete input that decodes but contains no detectable face. -/
def envNoFace : Env :=
  { name := "noface.jpg"
    loadResult := some (Img.raw 800 600 3)
    faceCascade := fun _ => .ok []
    eyeCascade := fun _ => .ok []
    writeOp := fun _ _ => .ok () }

/-- A concrete input with two face candidates of different areas and one
eye detected inside the chosen face's sub-region. -/
def envTwoFaces : Env :=
  { name := "two.jpg"
    loadResult := some (Img.raw 1000 1000 7)
    faceCascade := fun _ => .ok [⟨0, 0, 10, 10⟩, ⟨100, 100, 50, 50⟩]
    eyeCascade := fun _ => .ok [⟨10, 15, 8, 8⟩]
    writeOp := fun _ _ => .ok () }

/-- Per-axis facts about the clamped window: for any anchor coordinate and
any axis extent `e ≥ 1`, the window returned by `cropFromAnchor` on that
axis starts at `max 0 _ ≥ 0`, ends at most at `e`, and has length
`min 512 e`. -/
theorem cropFromAnchor_bounds (ax ay w h : Int) (hw : 1 ≤ w) (hh : 1 ≤ h) :
    0 ≤ (cropFromAnchor ax ay w h).left ∧
    (cropFromAnchor ax ay w h).left < (cropFromAnchor ax ay w h).right ∧
    (cropFromAnchor ax ay w h).right ≤ w ∧
    0 ≤ (cropFromAnchor ax ay w h).top ∧
    (cropFromAnchor ax ay w h).top < (cropFromAnchor ax ay w h).bottom ∧
    (cropFromAnchor ax ay w h).bottom ≤ h ∧
    (cropFromAnchor ax ay w h).right - (cropFromAnchor ax ay w h).left = min 512 w ∧
    (cropFromAnchor ax ay w h).bottom - (cropFromAnchor ax ay w h).top = min 512 h := by
  unfold cropFromAnchor
  dsimp only
  split_ifs <;> refine ⟨?_, ?_, ?_, ?_, ?_, ?_, ?_, ?_⟩ <;> omega

theorem firstMinX_le {l : List Box} {m : Box} (h : firstMinX l = some m) :
    ∀ c ∈ l, m.x ≤ c.x := by
  induction l generalizing m with
  | nil => simp [firstMinX] at h
  | cons a t ih =>
    simp only [firstMinX, Option.some.injEq] at h
    intro c hc
    rcases List.mem_cons.mp hc with rfl | hct
    · cases hX : firstMinX t with
      | none => rw [hX] at h; simp only [combineMin] at h; subst h; omega
      | some mt =>
        rw [hX] at h; simp only [combineMin] at h
        split_ifs at h <;> subst h <;> omega
    · cases hX : firstMinX t with
      | none =>
        cases t with
        | nil => simp at hct
        | cons b tb => simp [firstMinX] at hX
      | some mt =>
        have hmc := ih hX c hct
        rw [hX] at h; simp only [combineMin] at h
        split_ifs at h <;> subst h <;> omega

theorem lastMaxX_ge {l : List Box} {m : Box} (h : lastMaxX l = some m) :
    ∀ c ∈ l, c.x ≤ m.x := by
  induction l generalizing m with
  | nil => simp [lastMaxX] at h
  | cons a t ih =>
    simp only [lastMaxX, Option.some.injEq] at h
    intro c hc
    rcases List.mem_cons.mp hc with rfl | hct
    · cases hX : lastMaxX t with
      | none => rw [hX] at h; simp only [combineMax] at h; subst h; omega
      | some mt =>
        rw [hX] at h; simp only [combineMax] at h
        split_ifs at h <;> subst h <;> omega
    · cases hX : lastMaxX t with
      | none =>
        cases t with
        | nil => simp at hct
        | cons b tb => simp [lastMaxX] at hX
      | some mt =>
        have hmc := ih hX c hct
        rw [hX] at h; simp only [combineMax] at h
        split_ifs at h <;> subst h <;> omega

/-- `firstMinX` picks the earliest element attaining the minimal `x`:
everything before it has strictly larger `x`, everything after it has
`x` at least as large. -/
theorem firstMinX_char {l : List Box} {m : Box} (h : firstMinX l = some m) :
    ∃ l₁ l₂, l = l₁ ++ m :: l₂ ∧ (∀ c ∈ l₁, m.x < c.x) ∧ (∀ c ∈ l₂, m.x ≤ c.x) := by
  induction l generalizing m with
  | nil => simp [firstMinX] at h
  | cons a t ih =>
    simp only [firstMinX, Option.some.injEq] at h
    cases hX : firstMinX t with
    | none =>
      have ht : t = [] := by
        cases t with
        | nil => rfl
        | cons b tb => simp [firstMinX] at hX
      subst ht
      rw [hX] at h; simp only [combineMin] at h; subst h
      exact ⟨[], [], rfl, by simp, by simp⟩
    | some mt =>
      rw [hX] at h; simp only [combineMin] at h
      split_ifs at h with hlt
      · subst h
        obtain ⟨l₁, l₂, rfl, h₁, h₂⟩ := ih hX
        refine ⟨a :: l₁, l₂, rfl, ?_, h₂⟩
        intro c hc
        rcases List.mem_cons.mp hc with rfl | hc
        · exact hlt
        · exact h₁ c hc
      · subst h
        refine ⟨[], t, rfl, by simp, ?_⟩
        intro c hc
        have := firstMinX_le hX c hc
        omega

/-- `lastMaxX` picks the latest element attaining the maximal `x`:
everything before it has `x` at most as large, everything after it has
strictly smaller `x`. -/
theorem lastMaxX_char {l : List Box} {m : Box} (h : lastMaxX l = some m) :
    ∃ l₁ l₂, l = l₁ ++ m :: l₂ ∧ (∀ c ∈ l₁, c.x ≤ m.x) ∧ (∀ c ∈ l₂, c.x < m.x) := by
  induction l generalizing m with
  | nil => simp [lastMaxX] at h
  | cons a t ih =>
    simp only [lastMaxX, Option.some.injEq] at h
    cases hX : lastMaxX t with
    | none =>
      have ht : t = [] := by
        cases t with
        | nil => rfl
        | cons b tb => simp [lastMaxX] at hX
      subst ht
      rw [hX] at h; simp only [combineMax] at h; subst h
      exact ⟨[], [], rfl, by simp, by simp⟩
    | some mt =>
      rw [hX] at h; simp only [combineMax] at h
      split_ifs at h with hle
      · subst h
        obtain ⟨l₁, l₂, rfl, h₁, h₂⟩ := ih hX
        refine ⟨a :: l₁, l₂, rfl, ?_, h₂⟩
        intro c hc
        rcases List.mem_cons.mp hc with rfl | hc
        · exact hle
        · exact h₁ c hc
      · subst h
        refine ⟨[], t, rfl, by simp, ?_⟩
        intro c hc
        have := lastMaxX_ge hX c hc
        omega

theorem head?_orderedInsert (a : Box) (s : List Box) :
    (List.orderedInsert eyeLE a s).head? = some (combineMin a s.head?) := by
  cases s with
  | nil => rfl
  | cons b t =>
    simp only [List.orderedInsert, combineMin, List.head?_cons]
    split_ifs with h1 h2 <;> simp_all [eyeLE] <;> omega

theorem head?_insertionSortEyes (l : List Box) :
    (List.insertionSort eyeLE l).head? = firstMinX l := by
  induction l with
  | nil => rfl
  | cons a t ih =>
    show (List.orderedInsert eyeLE a (List.insertionSort eyeLE t)).head? = _
    rw [head?_orderedInsert, ih]
    rfl

theorem orderedInsert_ne_nil (a : Box) (s : List Box) :
    List.orderedInsert eyeLE a s ≠ [] := by
  cases s with
  | nil => simp
  | cons b t =>
    simp only [List.orderedInsert]
    split_ifs <;> simp

theorem getLast?_orderedInsert (a : Box) (s : List Box) (hs : List.Sorted eyeLE s) :
    (List.orderedInsert eyeLE a s).getLast? = some (combineMax a s.getLast?) := by
  induction s with
  | nil => rfl
  | cons b t ih =>
    simp only [List.orderedInsert]
    split_ifs with hab
    · rw [List.getLast?_cons_cons]
      have hbt : (b :: t).getLast? = some ((b :: t).getLast (by simp)) :=
        List.getLast?_eq_getLast_of_ne_nil (by simp)
      rw [hbt]
      have hmem : (b :: t).getLast (by simp) ∈ b :: t := List.getLast_mem _
      have hbx : b.x ≤ ((b :: t).getLast (by simp)).x := by
        rcases List.mem_cons.mp hmem with he | hmem'
        · have hx := congrArg Box.x he
          omega
        · exact List.rel_of_sorted_cons hs _ hmem'
      have hax : a.x ≤ ((b :: t).getLast (by simp)).x := le_trans hab hbx
      simp only [combineMax, if_pos hax]
    · have hne := orderedInsert_ne_nil a t
      rw [show (b :: List.orderedInsert eyeLE a t).getLast? = (List.orderedInsert eyeLE a t).getLast? by
            cases hoi : List.orderedInsert eyeLE a t with
            | nil => exact absurd hoi hne
            | cons c u => rw [List.getLast?_cons_cons]]
      rw [ih hs.of_cons]
      cases t with
      | nil =>
        have : ¬ a.x ≤ b.x := hab
        simp only [List.getLast?_nil, List.getLast?_singleton, combineMax, if_neg this]
      | cons c u => rw [List.getLast?_cons_cons]

theorem getLast?_insertionSortEyes (l : List Box) :
    (List.insertionSort eyeLE l).getLast? = lastMaxX l := by
  induction l with
  | nil => rfl
  | cons a t ih =>
    show (List.orderedInsert eyeLE a (List.insertionSort eyeLE t)).getLast? = _
    rw [getLast?_orderedInsert a _ (List.sorted_insertionSort eyeLE t), ih]
    rfl

theorem firstMinX_of_ne_nil {l : List Box} (h : l ≠ []) : ∃ m, firstMinX l = some m := by
  cases l with
  | nil => exact absurd rfl h
  | cons a t => exact ⟨_, rfl⟩

theorem lastMaxX_of_ne_nil {l : List Box} (h : l ≠ []) : ∃ m, lastMaxX l = some m := by
  cases l with
  | nil => exact absurd rfl h
  | cons a t => exact ⟨_, rfl⟩

/-- When two eyes are found, `calcAnchor` is determined by the earliest
minimal-`x` box and the latest maximal-`x` box of the eye list. -/
theorem calcAnchor_eyes (face : Box) {eyes : List Box} {le re : Box}
    (hlen : 2 ≤ eyes.length) (hle : firstMinX eyes = some le) (hre : lastMaxX eyes = some re) :
    calcAnchor face eyes =
      (Int.fdiv (le.x + Int.fdiv le.w 2 + re.x + Int.fdiv re.w 2) 2,
       Int.fdiv (le.y + Int.fdiv le.h 2 + re.y + Int.fdiv re.h 2) 2) := by
  have h1 : (sortEyesByX eyes).head? = some le := by
    unfold sortEyesByX
    rw [head?_insertionSortEyes]
    exact hle
  have h2 : (sortEyesByX eyes).getLast? = some re := by
    unfold sortEyesByX
    rw [getLast?_insertionSortEyes]
    exact hre
  unfold calcAnchor
  rw [if_pos hlen, h1, h2]

theorem firstMinX_cons (a : Box) (l : List Box) :
    firstMinX (a :: l) = some (combineMin a (firstMinX l)) := rfl

theorem lastMaxX_cons (a : Box) (l : List Box) :
    lastMaxX (a :: l) = some (combineMax a (lastMaxX l)) := rfl

theorem combineMin_some (a m : Box) :
    combineMin a (some m) = if m.x < a.x then m else a := rfl

theorem combineMax_some (a m : Box) :
    combineMax a (some m) = if a.x ≤ m.x then m else a := rfl

/-- Inserting `b` into the middle of the eye list either leaves the
earliest minimal-`x` box unchanged, or makes `b` itself the minimum. -/
theorem firstMinX_insert_cases (l r : List Box) (b : Box) :
    firstMinX (l ++ b :: r) = firstMinX (l ++ r) ∨
    (firstMinX (l ++ b :: r) = some b ∧ ∀ m, firstMinX (l ++ r) = some m → b.x ≤ m.x) := by
  induction l with
  | nil =>
    rw [List.nil_append, List.nil_append, firstMinX_cons]
    cases hr : firstMinX r with
    | none =>
      right
      refine ⟨by simp only [combineMin], ?_⟩
      intro m hm
      exact Option.noConfusion hm
    | some mr =>
      by_cases hlt : mr.x < b.x
      · left
        simp only [combineMin, if_pos hlt]
      · right
        refine ⟨by simp only [combineMin, if_neg hlt], ?_⟩
        intro m hm
        injection hm with hm
        subst hm
        omega
  | cons a l ih =>
    rw [List.cons_append, List.cons_append, firstMinX_cons, firstMinX_cons]
    rcases ih with heq | ⟨hXb, hY⟩
    · left
      rw [heq]
    · by_cases hab : b.x < a.x
      · right
        refine ⟨by rw [hXb]; simp only [combineMin, if_pos hab], ?_⟩
        intro m hm
        injection hm with hm
        cases hYv : firstMinX (l ++ r) with
        | none => rw [hYv] at hm; simp only [combineMin] at hm; subst hm; omega
        | some my =>
          have hby := hY my hYv
          rw [hYv] at hm
          simp only [combineMin] at hm
          split_ifs at hm <;> subst hm <;> omega
      · left
        rw [hXb]
        cases hYv : firstMinX (l ++ r) with
        | none => simp only [combineMin, if_neg hab]
        | some my =>
          have hbmy := hY my hYv
          simp only [combineMin, if_neg hab]
          rw [if_neg (by omega)]

/-- Inserting `b` into the middle of the eye list either leaves the
latest maximal-`x` box unchanged, or makes `b` itself the maximum. -/
theorem lastMaxX_insert_cases (l r : List Box) (b : Box) :
    lastMaxX (l ++ b :: r) = lastMaxX (l ++ r) ∨
    (lastMaxX (l ++ b :: r) = some b ∧ ∀ m, lastMaxX (l ++ r) = some m → m.x ≤ b.x) := by
  induction l with
  | nil =>
    rw [List.nil_append, List.nil_append, lastMaxX_cons]
    cases hr : lastMaxX r with
    | none =>
      right
      refine ⟨by simp only [combineMax], ?_⟩
      intro m hm
      exact Option.noConfusion hm
    | some mr =>
      by_cases hle : b.x ≤ mr.x
      · left
        simp only [combineMax, if_pos hle]
      · right
        refine ⟨by simp only [combineMax, if_neg hle], ?_⟩
        intro m hm
        injection hm with hm
        subst hm
        omega
  | cons a l ih =>
    rw [List.cons_append, List.cons_append, lastMaxX_cons, lastMaxX_cons]
    rcases ih with heq | ⟨hXb, hY⟩
    · left
      rw [heq]
    · by_cases hab : a.x ≤ b.x
      · right
        refine ⟨by rw [hXb]; simp only [combineMax, if_pos hab], ?_⟩
        intro m hm
        injection hm with hm
        cases hYv : lastMaxX (l ++ r) with
        | none => rw [hYv] at hm; simp only [combineMax] at hm; subst hm; omega
        | some my =>
          have hby := hY my hYv
          rw [hYv] at hm
          simp only [combineMax] at hm
          split_ifs at hm <;> subst hm <;> omega
      · left
        rw [hXb]
        cases hYv : lastMaxX (l ++ r) with
        | none => simp only [combineMax, if_neg hab]
        | some my =>
          have hbmy := hY my hYv
          simp only [combineMax, if_neg hab]
          rw [if_neg (by omega)]

/-- Removing an element whose `x` is not minimal does not change the
earliest minimal-`x` box. -/
theorem firstMinX_drop {l r : List Box} {b : Box}
    (hw : ∃ c ∈ l ++ r, c.x < b.x) :
    firstMinX (l ++ b :: r) = firstMinX (l ++ r) := by
  induction l with
  | nil =>
    obtain ⟨c, hc, hcx⟩ := hw
    simp only [List.nil_append] at hc ⊢
    cases r with
    | nil => simp at hc
    | cons a t =>
      have hr : firstMinX (a :: t) = some (combineMin a (firstMinX t)) := rfl
      have hle := firstMinX_le hr c hc
      rw [show firstMinX (b :: a :: t) = some (combineMin b (firstMinX (a :: t))) from rfl, hr,
        combineMin_some]
      rw [if_pos (by omega)]
  | cons a l ih =>
    obtain ⟨c, hc, hcx⟩ := hw
    simp only [List.cons_append] at hc ⊢
    rcases List.mem_cons.mp hc with rfl | hclr
    · rcases firstMinX_insert_cases l r b with heq | ⟨hXb, hY⟩
      · rw [firstMinX_cons, firstMinX_cons, heq]
      · rw [firstMinX_cons, firstMinX_cons, hXb]
        cases hYv : firstMinX (l ++ r) with
        | none => simp only [combineMin]; rw [if_neg (by omega)]
        | some my =>
          have hbmy := hY my hYv
          simp only [combineMin]
          rw [if_neg (by omega), if_neg (by omega)]
    · rw [firstMinX_cons, firstMinX_cons, ih ⟨c, hclr, hcx⟩]

/-- Removing an element whose `x` is not maximal does not change the
latest maximal-`x` box. -/
theorem lastMaxX_drop {l r : List Box} {b : Box}
    (hw : ∃ c ∈ l ++ r, b.x < c.x) :
    lastMaxX (l ++ b :: r) = lastMaxX (l ++ r) := by
  induction l with
  | nil =>
    obtain ⟨c, hc, hcx⟩ := hw
    simp only [List.nil_append] at hc ⊢
    cases r with
    | nil => simp at hc
    | cons a t =>
      have hr : lastMaxX (a :: t) = some (combineMax a (lastMaxX t)) := rfl
      have hge := lastMaxX_ge hr c hc
      rw [show lastMaxX (b :: a :: t) = some (combineMax b (lastMaxX (a :: t))) from rfl, hr,
        combineMax_some]
      rw [if_pos (by omega)]
  | cons a l ih =>
    obtain ⟨c, hc, hcx⟩ := hw
    simp only [List.cons_append] at hc ⊢
    rcases List.mem_cons.mp hc with rfl | hclr
    · rcases lastMaxX_insert_cases l r b with heq | ⟨hXb, hY⟩
      · rw [lastMaxX_cons, lastMaxX_cons, heq]
      · rw [lastMaxX_cons, lastMaxX_cons, hXb]
        cases hYv : lastMaxX (l ++ r) with
        | none => simp only [combineMax]; rw [if_neg (by omega)]
        | some my =>
          have hbmy := hY my hYv
          simp only [combineMax]
          rw [if_neg (by omega), if_neg (by omega)]
    · rw [lastMaxX_cons, lastMaxX_cons, ih ⟨c, hclr, hcx⟩]

/-- C1: the crop-window computation of `calculate_crop_region` agrees with
the specification's algorithm (initial window at `anchor - (256, 170)`,
per-axis shift-to-fit clamp, final safety clamp) at every anchor and
image size, and on a 1000x1000 image with anchor `(990, 990)` it returns
the region `(488, 488, 1000, 1000)`. -/
theorem claim1_crop_follows_spec_alg :
    (∀ ax ay w h : Int, cropFromAnchor ax ay w h = cropRegionSpecAlg ax ay w h) ∧
    cropFromAnchor 990 990 1000 1000 = ⟨488, 488, 1000, 1000⟩ :=
  ⟨fun _ _ _ _ => rfl, by decide⟩

/-- C2: for an image with positive extents and an anchor inside the image,
the region returned by `calculate_crop_region` satisfies
`0 ≤ left < right ≤ width` and `0 ≤ top < bottom ≤ height`, and its size
per axis is `min 512 extent`. -/
theorem claim2_region_wellformed (image : Img) (face : Box) (eyes : List Box)
    (hw : 1 ≤ image.dims.2) (hh : 1 ≤ image.dims.1)
    (hx0 : 0 ≤ (calcAnchor face eyes).1) (hxw : (calcAnchor face eyes).1 < (image.dims.2 : Int))
    (hy0 : 0 ≤ (calcAnchor face eyes).2) (hyh : (calcAnchor face eyes).2 < (image.dims.1 : Int)) :
    0 ≤ (calculate_crop_region image face eyes).left ∧
    (calculate_crop_region image face eyes).left < (calculate_crop_region image face eyes).right ∧
    (calculate_crop_region image face eyes).right ≤ (image.dims.2 : Int) ∧
    0 ≤ (calculate_crop_region image face eyes).top ∧
    (calculate_crop_region image face eyes).top < (calculate_crop_region image face eyes).bottom ∧
    (calculate_crop_region image face eyes).bottom ≤ (image.dims.1 : Int) ∧
    (calculate_crop_region image face eyes).right - (calculate_crop_region image face eyes).left
      = min 512 (image.dims.2 : Int) ∧
    (calculate_crop_region image face eyes).bottom - (calculate_crop_region image face eyes).top
      = min 512 (image.dims.1 : Int) := by
  have hw' : (1 : Int) ≤ (image.dims.2 : Int) := by exact_mod_cast hw
  have hh' : (1 : Int) ≤ (image.dims.1 : Int) := by exact_mod_cast hh
  exact cropFromAnchor_bounds (calcAnchor face eyes).1 (calcAnchor face eyes).2
    (image.dims.2 : Int) (image.dims.1 : Int) hw' hh'

/-- Witness for C2 at the spec's P1 data: a 1000x1000 image, face box
`(450, 450, 100, 100)`, no eyes; the anchor is the face center
`(500, 500)` and the region is well formed of size 512 per axis. -/
theorem claim2_region_wellformed_witness :
    0 ≤ (calculate_crop_region (Img.raw 1000 1000 0) ⟨450, 450, 100, 100⟩ []).left ∧
    (calculate_crop_region (Img.raw 1000 1000 0) ⟨450, 450, 100, 100⟩ []).left
      < (calculate_crop_region (Img.raw 1000 1000 0) ⟨450, 450, 100, 100⟩ []).right ∧
    (calculate_crop_region (Img.raw 1000 1000 0) ⟨450, 450, 100, 100⟩ []).right
      ≤ ((Img.raw 1000 1000 0).dims.2 : Int) ∧
    0 ≤ (calculate_crop_region (Img.raw 1000 1000 0) ⟨450, 450, 100, 100⟩ []).top ∧
    (calculate_crop_region (Img.raw 1000 1000 0) ⟨450, 450, 100, 100⟩ []).top
      < (calculate_crop_region (Img.raw 1000 1000 0) ⟨450, 450, 100, 100⟩ []).bottom ∧
    (calculate_crop_region (Img.raw 1000 1000 0) ⟨450, 450, 100, 100⟩ []).bottom
      ≤ ((Img.raw 1000 1000 0).dims.1 : Int) ∧
    (calculate_crop_region (Img.raw 1000 1000 0) ⟨450, 450, 100, 100⟩ []).right
      - (calculate_crop_region (Img.raw 1000 1000 0) ⟨450, 450, 100, 100⟩ []).left
      = min 512 ((Img.raw 1000 1000 0).dims.2 : Int) ∧
    (calculate_crop_region (Img.raw 1000 1000 0) ⟨450, 450, 100, 100⟩ []).bottom
      - (calculate_crop_region (Img.raw 1000 1000 0) ⟨450, 450, 100, 100⟩ []).top
      = min 512 ((Img.raw 1000 1000 0).dims.1 : Int) :=
  claim2_region_wellformed (Img.raw 1000 1000 0) ⟨450, 450, 100, 100⟩ []
    (by decide) (by decide) (by decide) (by decide) (by decide) (by decide)

/-- C9: `calculate_crop_region`'s window computation is safe for every
integer anchor — including anchors far outside the image — whenever the
image extents are positive: the region satisfies
`0 ≤ left < right ≤ w` and `0 ≤ top < bottom ≤ h`, and the NumPy slice
`image[top:bottom, left:right]` is non-empty in both axes, so the resize
step never receives an empty image. -/
theorem claim9_crop_total_safe (ax ay w h : Int) (image : Img) (hw : 1 ≤ w) (hh : 1 ≤ h) :
    0 ≤ (cropFromAnchor ax ay w h).left ∧
    (cropFromAnchor ax ay w h).left < (cropFromAnchor ax ay w h).right ∧
    (cropFromAnchor ax ay w h).right ≤ w ∧
    0 ≤ (cropFromAnchor ax ay w h).top ∧
    (cropFromAnchor ax ay w h).top < (cropFromAnchor ax ay w h).bottom ∧
    (cropFromAnchor ax ay w h).bottom ≤ h ∧
    0 < (Img.roi image (cropFromAnchor ax ay w h).top (cropFromAnchor ax ay w h).bottom
          (cropFromAnchor ax ay w h).left (cropFromAnchor ax ay w h).right).dims.1 ∧
    0 < (Img.roi image (cropFromAnchor ax ay w h).top (cropFromAnchor ax ay w h).bottom
          (cropFromAnchor ax ay w h).left (cropFromAnchor ax ay w h).right).dims.2 := by
  obtain ⟨h1, h2, h3, h4, h5, h6, h7, h8⟩ := cropFromAnchor_bounds ax ay w h hw hh
  refine ⟨h1, h2, h3, h4, h5, h6, ?_, ?_⟩ <;> simp only [Img.dims] <;> omega

/-- Witness for C9 at an anchor far outside a 1x1 image. -/
theorem claim9_crop_total_safe_witness :
    0 ≤ (cropFromAnchor (-5000) 7777 1 1).left ∧
    (cropFromAnchor (-5000) 7777 1 1).left < (cropFromAnchor (-5000) 7777 1 1).right ∧
    (cropFromAnchor (-5000) 7777 1 1).right ≤ 1 ∧
    0 ≤ (cropFromAnchor (-5000) 7777 1 1).top ∧
    (cropFromAnchor (-5000) 7777 1 1).top < (cropFromAnchor (-5000) 7777 1 1).bottom ∧
    (cropFromAnchor (-5000) 7777 1 1).bottom ≤ 1 ∧
    0 < (Img.roi (Img.raw 1 1 0) (cropFromAnchor (-5000) 7777 1 1).top
          (cropFromAnchor (-5000) 7777 1 1).bottom (cropFromAnchor (-5000) 7777 1 1).left
          (cropFromAnchor (-5000) 7777 1 1).right).dims.1 ∧
    0 < (Img.roi (Img.raw 1 1 0) (cropFromAnchor (-5000) 7777 1 1).top
          (cropFromAnchor (-5000) 7777 1 1).bottom (cropFromAnchor (-5000) 7777 1 1).left
          (cropFromAnchor (-5000) 7777 1 1).right).dims.2 :=
  claim9_crop_total_safe (-5000) 7777 1 1 (Img.raw 1 1 0) (by decide) (by decide)

theorem maxByArea_cons (f g : Box) (gs : List Box) :
    maxByArea f (g :: gs) = maxByArea (if f.w * f.h < g.w * g.h then g else f) gs := rfl

theorem maxByArea_mem (f : Box) (fs : List Box) : maxByArea f fs ∈ f :: fs := by
  induction fs generalizing f with
  | nil => simp [maxByArea]
  | cons g gs ih =>
    rw [maxByArea_cons]
    by_cases hc : f.w * f.h < g.w * g.h
    · rw [if_pos hc]
      rcases List.mem_cons.mp (ih g) with he | hm
      · rw [he]
        simp
      · exact List.mem_cons_of_mem _ (List.mem_cons_of_mem _ hm)
    · rw [if_neg hc]
      rcases List.mem_cons.mp (ih f) with he | hm
      · rw [he]
        simp
      · exact List.mem_cons_of_mem _ (List.mem_cons_of_mem _ hm)

theorem maxByArea_ge (f : Box) (fs : List Box) :
    ∀ g ∈ f :: fs, g.w * g.h ≤ (maxByArea f fs).w * (maxByArea f fs).h := by
  induction fs generalizing f with
  | nil =>
    intro g hg
    simp only [List.mem_singleton] at hg
    subst hg
    exact le_refl _
  | cons g' gs ih =>
    intro g hg
    rw [maxByArea_cons]
    rcases List.mem_cons.mp hg with rfl | hg'
    · by_cases hc : g.w * g.h < g'.w * g'.h
      · rw [if_pos hc]
        exact le_trans hc.le (ih g' g' (List.mem_cons_self _ _))
      · rw [if_neg hc]
        exact ih g g (List.mem_cons_self _ _)
    · rcases List.mem_cons.mp hg' with rfl | hgs
      · by_cases hc : f.w * f.h < g.w * g.h
        · rw [if_pos hc]
          exact ih g g (List.mem_cons_self _ _)
        · rw [if_neg hc]
          exact le_trans (not_lt.mp hc) (ih f f (List.mem_cons_self _ _))
      · by_cases hc : f.w * f.h < g'.w * g'.h
        · rw [if_pos hc]
          exact ih g' g (List.mem_cons_of_mem _ hgs)
        · rw [if_neg hc]
          exact ih f g (List.mem_cons_of_mem _ hgs)

/-- The normalize step always yields a 512x512 image: either the slice
already is 512x512, or it is resized to exactly that. -/
theorem extract_and_normalize_dims (image : Img) (l t r b : Int) :
    (extract_and_normalize image l t r b).dims = (512, 512) := by
  unfold extract_and_normalize
  dsimp only
  split_ifs with hc
  · rfl
  · push_neg at hc
    exact Prod.ext hc.1 hc.2

theorem cropAndNormalize_dims (image : Img) (face : Box) (eyes : List Box) :
    (cropAndNormalize image face eyes).dims = (512, 512) :=
  extract_and_normalize_dims image _ _ _ _

/-- A `True` outcome of `process_image` can only come from a successful
run of the body. -/
theorem processImageBody_of_true {env : Env} {ws : List WrittenFile}
    (h : process_image env = (true, ws)) : processImageBody env = .ok (true, ws) := by
  unfold process_image at h
  cases hb : processImageBody env with
  | ok r =>
    rw [hb] at h
    simp only [] at h
    rw [h]
  | error e =>
    rw [hb] at h
    simp at h

theorem foldl_countStep (inputs : List Env) (s f : Nat) :
    inputs.foldl countStep (s, f)
      = (s + inputs.countP (fun e => (process_image e).1),
         f + inputs.countP (fun e => !(process_image e).1)) := by
  induction inputs generalizing s f with
  | nil => simp
  | cons e es ih =>
    rw [List.foldl_cons]
    by_cases hp : (process_image e).1 = true
    · rw [show countStep (s, f) e = (s + 1, f) by simp [countStep, hp], ih]
      simp only [List.countP_cons, hp, Bool.not_true, if_true, if_false]
      refine Prod.ext ?_ ?_ <;> simp <;> omega
    · rw [show countStep (s, f) e = (s, f + 1) by simp [countStep, hp], ih]
      simp only [List.countP_cons, Bool.not_eq_true] at hp ⊢
      rw [hp]
      refine Prod.ext ?_ ?_ <;> simp <;> omega

theorem countP_not_add (l : List Env) :
    l.countP (fun e => (process_image e).1) + l.countP (fun e => !(process_image e).1)
      = l.length := by
  induction l with
  | nil => rfl
  | cons e es ih =>
    by_cases hp : (process_image e).1 = true <;>
      simp [List.countP_cons, hp] <;> omega

/-- C3: with at least two eye boxes, the anchor is the integer-division
midpoint of the centers of a minimal-`x` eye box and a maximal-`x` eye box
(each center `(x + w/2, y + h/2)` with floor division); with fewer than two
eye boxes it is the face box's center; and eyes `(100,100,20,20)` and
`(180,100,20,20)` give anchor `(150, 110)` whatever the face box is. -/
theorem claim3_anchor_point :
    (∀ (face : Box) (eyes : List Box), 2 ≤ eyes.length →
      ∃ le re, le ∈ eyes ∧ re ∈ eyes ∧
        (∀ c ∈ eyes, le.x ≤ c.x) ∧ (∀ c ∈ eyes, c.x ≤ re.x) ∧
        calcAnchor face eyes =
          (Int.fdiv ((le.x + Int.fdiv le.w 2) + (re.x + Int.fdiv re.w 2)) 2,
           Int.fdiv ((le.y + Int.fdiv le.h 2) + (re.y + Int.fdiv re.h 2)) 2)) ∧
    (∀ (face : Box) (eyes : List Box), eyes.length < 2 →
      calcAnchor face eyes = (face.x + Int.fdiv face.w 2, face.y + Int.fdiv face.h 2)) ∧
    (∀ face : Box, calcAnchor face [⟨100, 100, 20, 20⟩, ⟨180, 100, 20, 20⟩] = (150, 110)) := by
  refine ⟨?_, ?_, ?_⟩
  · intro face eyes hlen
    have hne : eyes ≠ [] := by cases eyes <;> simp_all
    obtain ⟨le, hle⟩ := firstMinX_of_ne_nil hne
    obtain ⟨re, hre⟩ := lastMaxX_of_ne_nil hne
    obtain ⟨l₁, l₂, hsplit, -, -⟩ := firstMinX_char hle
    obtain ⟨r₁, r₂, hsplit', -, -⟩ := lastMaxX_char hre
    refine ⟨le, re, ?_, ?_, firstMinX_le hle, lastMaxX_ge hre, ?_⟩
    · rw [hsplit]
      exact List.mem_append_right _ (List.mem_cons_self _ _)
    · rw [hsplit']
      exact List.mem_append_right _ (List.mem_cons_self _ _)
    · rw [calcAnchor_eyes face hlen hle hre]
      have h1 : le.x + Int.fdiv le.w 2 + re.x + Int.fdiv re.w 2
          = (le.x + Int.fdiv le.w 2) + (re.x + Int.fdiv re.w 2) := by ring
      have h2 : le.y + Int.fdiv le.h 2 + re.y + Int.fdiv re.h 2
          = (le.y + Int.fdiv le.h 2) + (re.y + Int.fdiv re.h 2) := by ring
      rw [h1, h2]
  · intro face eyes hlen
    unfold calcAnchor
    rw [if_neg (by omega)]
  · intro face
    rfl

/-- Witness for C3 at the spec's P4 data. -/
theorem claim3_anchor_point_witness :
    ∃ le re, le ∈ [(⟨100, 100, 20, 20⟩ : Box), ⟨180, 100, 20, 20⟩]
      ∧ re ∈ [(⟨100, 100, 20, 20⟩ : Box), ⟨180, 100, 20, 20⟩]
      ∧ (∀ c ∈ [(⟨100, 100, 20, 20⟩ : Box), ⟨180, 100, 20, 20⟩], le.x ≤ c.x)
      ∧ (∀ c ∈ [(⟨100, 100, 20, 20⟩ : Box), ⟨180, 100, 20, 20⟩], c.x ≤ re.x)
      ∧ calcAnchor ⟨400, 400, 50, 60⟩ [⟨100, 100, 20, 20⟩, ⟨180, 100, 20, 20⟩]
          = (Int.fdiv ((le.x + Int.fdiv le.w 2) + (re.x + Int.fdiv re.w 2)) 2,
             Int.fdiv ((le.y + Int.fdiv le.h 2) + (re.y + Int.fdiv re.h 2)) 2) :=
  claim3_anchor_point.1 ⟨400, 400, 50, 60⟩
    [⟨100, 100, 20, 20⟩, ⟨180, 100, 20, 20⟩] (by decide)

/-- C8: with at least two eye boxes the anchor does not depend on the face
box, and removing a box whose `x` is neither minimal nor maximal among the
eye boxes leaves the anchor unchanged. -/
theorem claim8_anchor_extremes_only :
    (∀ (face face' : Box) (eyes : List Box), 2 ≤ eyes.length →
      calcAnchor face eyes = calcAnchor face' eyes) ∧
    (∀ (face b : Box) (l r : List Box),
      (∃ c ∈ l ++ r, c.x < b.x) → (∃ c ∈ l ++ r, b.x < c.x) →
      calcAnchor face (l ++ b :: r) = calcAnchor face (l ++ r)) := by
  constructor
  · intro face face' eyes hlen
    have hne : eyes ≠ [] := by cases eyes <;> simp_all
    obtain ⟨le, hle⟩ := firstMinX_of_ne_nil hne
    obtain ⟨re, hre⟩ := lastMaxX_of_ne_nil hne
    rw [calcAnchor_eyes face hlen hle hre, calcAnchor_eyes face' hlen hle hre]
  · intro face b l r hmin hmax
    obtain ⟨c₁, hc₁, hx₁⟩ := hmin
    obtain ⟨c₂, hc₂, hx₂⟩ := hmax
    have hlr2 : 2 ≤ (l ++ r).length := by
      match hL : l ++ r with
      | [] => rw [hL] at hc₁; simp at hc₁
      | [a] =>
        rw [hL] at hc₁ hc₂
        simp only [List.mem_singleton] at hc₁ hc₂
        subst hc₁; subst hc₂
        omega
      | a :: a' :: t => simp
    have hne : l ++ r ≠ [] := by
      intro h
      rw [h] at hlr2
      simp at hlr2
    obtain ⟨le, hle⟩ := firstMinX_of_ne_nil hne
    obtain ⟨re, hre⟩ := lastMaxX_of_ne_nil hne
    have hlen' : 2 ≤ (l ++ b :: r).length := by
      simp only [List.length_append, List.length_cons] at hlr2 ⊢
      omega
    have hle' : firstMinX (l ++ b :: r) = some le := by
      rw [firstMinX_drop ⟨c₁, hc₁, hx₁⟩]
      exact hle
    have hre' : lastMaxX (l ++ b :: r) = some re := by
      rw [lastMaxX_drop ⟨c₂, hc₂, hx₂⟩]
      exact hre
    rw [calcAnchor_eyes face hlen' hle' hre', calcAnchor_eyes face hlr2 hle hre]

/-- Witness for C8: removing the interior box `(5,5,2,2)` from between
eyes at `x = 0` and `x = 10` leaves the anchor unchanged. -/
theorem claim8_anchor_extremes_only_witness :
    calcAnchor ⟨0, 0, 1, 1⟩ ([⟨0, 0, 2, 2⟩] ++ (⟨5, 5, 2, 2⟩ : Box) :: [⟨10, 0, 2, 2⟩])
      = calcAnchor ⟨0, 0, 1, 1⟩ ([⟨0, 0, 2, 2⟩] ++ [⟨10, 0, 2, 2⟩]) :=
  claim8_anchor_extremes_only.2 ⟨0, 0, 1, 1⟩ ⟨5, 5, 2, 2⟩ [⟨0, 0, 2, 2⟩] [⟨10, 0, 2, 2⟩]
    ⟨⟨0, 0, 2, 2⟩, by decide, by decide⟩ ⟨⟨10, 0, 2, 2⟩, by decide, by decide⟩

/-- C10: the stable x-sort makes the left eye the earliest minimal-`x` box
(everything before it in the detector's order has strictly larger `x`)
and the right eye the latest maximal-`x` box (everything after it has
strictly smaller `x`); and with tied `x` coordinates the anchor is not
permutation invariant: swapping the two `x = 0` boxes changes it. -/
theorem claim10_stable_tie_breaking :
    (∀ (face : Box) (eyes : List Box), 2 ≤ eyes.length →
      ∃ le re l₁ l₂ r₁ r₂,
        eyes = l₁ ++ le :: l₂ ∧ (∀ c ∈ l₁, le.x < c.x) ∧ (∀ c ∈ l₂, le.x ≤ c.x) ∧
        eyes = r₁ ++ re :: r₂ ∧ (∀ c ∈ r₁, c.x ≤ re.x) ∧ (∀ c ∈ r₂, c.x < re.x) ∧
        calcAnchor face eyes =
          (Int.fdiv (le.x + Int.fdiv le.w 2 + re.x + Int.fdiv re.w 2) 2,
           Int.fdiv (le.y + Int.fdiv le.h 2 + re.y + Int.fdiv re.h 2) 2)) ∧
    calcAnchor ⟨0, 0, 1, 1⟩ [⟨0, 0, 2, 2⟩, ⟨0, 100, 2, 2⟩, ⟨10, 0, 2, 2⟩]
      ≠ calcAnchor ⟨0, 0, 1, 1⟩ [⟨0, 100, 2, 2⟩, ⟨0, 0, 2, 2⟩, ⟨10, 0, 2, 2⟩] := by
  constructor
  · intro face eyes hlen
    have hne : eyes ≠ [] := by cases eyes <;> simp_all
    obtain ⟨le, hle⟩ := firstMinX_of_ne_nil hne
    obtain ⟨re, hre⟩ := lastMaxX_of_ne_nil hne
    obtain ⟨l₁, l₂, hsplit, h₁, h₂⟩ := firstMinX_char hle
    obtain ⟨r₁, r₂, hsplit', h₁', h₂'⟩ := lastMaxX_char hre
    exact ⟨le, re, l₁, l₂, r₁, r₂, hsplit, h₁, h₂, hsplit', h₁', h₂',
      calcAnchor_eyes face hlen hle hre⟩
  · decide

/-- Witness for C10's selection clause at the spec's P4 data. -/
theorem claim10_stable_tie_breaking_witness :
    ∃ le re l₁ l₂ r₁ r₂,
      ([(⟨100, 100, 20, 20⟩ : Box), ⟨180, 100, 20, 20⟩] : List Box) = l₁ ++ le :: l₂
      ∧ (∀ c ∈ l₁, le.x < c.x) ∧ (∀ c ∈ l₂, le.x ≤ c.x)
      ∧ ([(⟨100, 100, 20, 20⟩ : Box), ⟨180, 100, 20, 20⟩] : List Box) = r₁ ++ re :: r₂
      ∧ (∀ c ∈ r₁, c.x ≤ re.x) ∧ (∀ c ∈ r₂, c.x < re.x)
      ∧ calcAnchor ⟨400, 400, 50, 60⟩ [⟨100, 100, 20, 20⟩, ⟨180, 100, 20, 20⟩]
          = (Int.fdiv (le.x + Int.fdiv le.w 2 + re.x + Int.fdiv re.w 2) 2,
             Int.fdiv (le.y + Int.fdiv le.h 2 + re.y + Int.fdiv re.h 2) 2) :=
  claim10_stable_tie_breaking.1 ⟨400, 400, 50, 60⟩
    [⟨100, 100, 20, 20⟩, ⟨180, 100, 20, 20⟩] (by decide)

/-- C4: `process_image` never propagates an error to its caller: on load
failure it returns a failure result with no written file, on "no face
detected" it returns a failure result with no written file, and any error
raised by a collaborator inside the body is caught and turned into a
failure result with no written file. -/
theorem claim4_errors_contained (env : Env) :
    (env.loadResult = none → process_image env = (false, [])) ∧
    (∀ image : Img, env.loadResult = some image →
      detect_face_and_eyes env image = .ok none → process_image env = (false, [])) ∧
    (∀ e : Err, processImageBody env = .error e → process_image env = (false, [])) := by
  refine ⟨?_, ?_, ?_⟩
  · intro h
    simp [process_image, processImageBody, h]
  · intro image h hdet
    simp [process_image, processImageBody, h, hdet]
  · intro e h
    simp [process_image, h]

/-- Witness for C4 at a concrete unreadable input. -/
theorem claim4_errors_contained_witness : process_image envReadFail = (false, []) :=
  (claim4_errors_contained envReadFail).1 rfl

/-- C5: `process_folder` tallies a success or a failure for every input
(success count = number of inputs whose `process_image` is `True`,
failure count the rest, and they sum to the number of inputs), reports
overall success exactly when at least one image succeeded, and on the
concrete 5-input batch with one unreadable file and one face-less file
it yields counts `(3, 2)` and still reports success. -/
theorem claim5_batch_counts :
    (∀ inputs : List Env,
      (processCounts inputs).1 = inputs.countP (fun e => (process_image e).1) ∧
      (processCounts inputs).2 = inputs.countP (fun e => !(process_image e).1) ∧
      (processCounts inputs).1 + (processCounts inputs).2 = inputs.length ∧
      (process_folder inputs = true ↔ 0 < (processCounts inputs).1)) ∧
    processCounts [envOk 1, envOk 2, envReadFail, envNoFace, envOk 5] = (3, 2) ∧
    process_folder [envOk 1, envOk 2, envReadFail, envNoFace, envOk 5] = true := by
  refine ⟨?_, ?_, ?_⟩
  · intro inputs
    have hfold := foldl_countStep inputs 0 0
    have h1 : (processCounts inputs).1 = inputs.countP (fun e => (process_image e).1) := by
      unfold processCounts
      rw [hfold]
      simp
    have h2 : (processCounts inputs).2 = inputs.countP (fun e => !(process_image e).1) := by
      unfold processCounts
      rw [hfold]
      simp
    refine ⟨h1, h2, ?_, ?_⟩
    · rw [h1, h2]
      exact countP_not_add inputs
    · cases inputs with
      | nil => simp [process_folder, processCounts]
      | cons e es => simp [process_folder]
  · decide
  · decide

/-- C6: the slice bounded by the crop region is resampled to 512x512 with
`INTER_LANCZOS4` exactly when its shape differs from 512 in either axis,
is passed through unchanged otherwise, the normalize step always yields a
512x512 image, and consequently every file written by a successful
`process_image` holds a 512x512 image. -/
theorem claim6_output_always_512 :
    (∀ (image : Img) (left top right bottom : Int),
      (extract_and_normalize image left top right bottom
          = Img.resized (Img.roi image top bottom left right) 512 512 Interp.lanczos4
        ↔ ((Img.roi image top bottom left right).dims.1 ≠ 512
            ∨ (Img.roi image top bottom left right).dims.2 ≠ 512)) ∧
      ((Img.roi image top bottom left right).dims.1 = 512
          ∧ (Img.roi image top bottom left right).dims.2 = 512 →
        extract_and_normalize image left top right bottom
          = Img.roi image top bottom left right) ∧
      (extract_and_normalize image left top right bottom).dims = (512, 512)) ∧
    (∀ (env : Env) (ws : List WrittenFile), process_image env = (true, ws) →
      ∀ wfile ∈ ws, wfile.image.dims = (512, 512)) := by
  constructor
  · intro image left top right bottom
    refine ⟨?_, ?_, extract_and_normalize_dims image left top right bottom⟩
    · unfold extract_and_normalize
      dsimp only
      split_ifs with hc
      · exact ⟨fun _ => hc, fun _ => rfl⟩
      · push_neg at hc
        constructor
        · intro heq
          exact absurd heq (by simp)
        · intro hd
          rcases hd with hd | hd
          · exact absurd hc.1 hd
          · exact absurd hc.2 hd
    · unfold extract_and_normalize
      dsimp only
      intro hd
      rw [if_neg (by push_neg; exact hd)]
  · intro env ws h wfile hw
    have hbody := processImageBody_of_true h
    unfold processImageBody at hbody
    cases hload : env.loadResult with
    | none => simp [hload] at hbody
    | some image =>
      simp only [hload] at hbody
      cases hdet : detect_face_and_eyes env image with
      | error e => simp [hdet] at hbody
      | ok od =>
        simp only [hdet] at hbody
        cases od with
        | none => simp at hbody
        | some p =>
          obtain ⟨face, eyes⟩ := p
          cases hwr : env.writeOp ("processed_" ++ env.name) (cropAndNormalize image face eyes) with
          | error e => simp [hwr] at hbody
          | ok u =>
            simp only [hwr, Except.ok.injEq, Prod.mk.injEq] at hbody
            obtain ⟨-, hws⟩ := hbody
            subst hws
            simp only [List.mem_singleton] at hw
            subst hw
            exact cropAndNormalize_dims image face eyes

/-- C7: on a non-empty face-candidate list the detector helper returns the
first face of maximal area (`w * h`), with the detected eye boxes
translated by the chosen face's `(x, y)` offset and their widths and
heights unchanged; on an empty candidate list it returns the no-face
result, and `process_image` then fails without writing anything. -/
theorem claim7_detector_contract :
    (∀ (env : Env) (image : Img) (f : Box) (fs eyes : List Box),
      env.faceCascade (Img.gray image) = .ok (f :: fs) →
      env.eyeCascade (Img.roi (Img.gray image) (maxByArea f fs).y
          ((maxByArea f fs).y + (maxByArea f fs).h) (maxByArea f fs).x
          ((maxByArea f fs).x + (maxByArea f fs).w)) = .ok eyes →
      detect_face_and_eyes env image = .ok (some (maxByArea f fs,
        eyes.map (fun e => ⟨(maxByArea f fs).x + e.x, (maxByArea f fs).y + e.y, e.w, e.h⟩))) ∧
      maxByArea f fs ∈ f :: fs ∧
      (∀ g ∈ f :: fs, g.w * g.h ≤ (maxByArea f fs).w * (maxByArea f fs).h)) ∧
    (∀ (env : Env) (image : Img), env.faceCascade (Img.gray image) = .ok [] →
      detect_face_and_eyes env image = .ok none ∧
      (env.loadResult = some image → process_image env = (false, []))) := by
  constructor
  · intro env image f fs eyes hfc hec
    refine ⟨?_, maxByArea_mem f fs, maxByArea_ge f fs⟩
    simp only [detect_face_and_eyes, hfc, hec]
  · intro env image hfc
    have hdet : detect_face_and_eyes env image = .ok none := by
      simp only [detect_face_and_eyes, hfc]
    refine ⟨hdet, ?_⟩
    intro hload
    simp [process_image, processImageBody, hload, hdet]

/-- Witness for C7 on a concrete input with two face candidates: the
larger face `(100, 100, 50, 50)` is chosen and the eye box is translated
by its offset. -/
theorem claim7_detector_contract_witness :
    detect_face_and_eyes envTwoFaces (Img.raw 1000 1000 7)
      = .ok (some (maxByArea ⟨0, 0, 10, 10⟩ [⟨100, 100, 50, 50⟩],
        [(⟨10, 15, 8, 8⟩ : Box)].map (fun e =>
          ⟨(maxByArea ⟨0, 0, 10, 10⟩ [⟨100, 100, 50, 50⟩]).x + e.x,
           (maxByArea ⟨0, 0, 10, 10⟩ [⟨100, 100, 50, 50⟩]).y + e.y, e.w, e.h⟩))) ∧
    maxByArea ⟨0, 0, 10, 10⟩ [⟨100, 100, 50, 50⟩] ∈ [(⟨0, 0, 10, 10⟩ : Box), ⟨100, 100, 50, 50⟩] ∧
    (∀ g ∈ [(⟨0, 0, 10, 10⟩ : Box), ⟨100, 100, 50, 50⟩],
      g.w * g.h ≤ (maxByArea ⟨0, 0, 10, 10⟩ [⟨100, 100, 50, 50⟩]).w
        * (maxByArea ⟨0, 0, 10, 10⟩ [⟨100, 100, 50, 50⟩]).h) :=
  claim7_detector_contract.1 envTwoFaces (Img.raw 1000 1000 7)
    ⟨0, 0, 10, 10⟩ [⟨100, 100, 50, 50⟩] [⟨10, 15, 8, 8⟩] rfl rfl

end FaceProc
